import Mathlib

/-
Verification of the workspace symbol scanner (src/services/scanner.ts).

Strings and filesystem paths are modelled as lists of characters (`Str`).
The external collaborators declared in the design document (filesystem
primitives, the stylesheet parser, the glob matcher) are modelled as an
explicit environment `Env`; the cache and the list of parser invocations
are threaded as an explicit `ScanState`.  Promise fan-out within one wave
is sequentialized left-to-right, which preserves every observable the
claims mention (result lists, cache contents, parser invocations).
-/

namespace Scanner

/-- Character-list strings: paths, file contents and glob patterns. -/
abbrev Str := List Char

/-- Shorthand turning a string literal into its character list. -/
def str (s : String) : Str := s.toList

/-- An import record of a symbol table (types/symbols `IImport`). -/
structure IImport where
  filepath : Str
  dynamic : Bool
  css : Bool
deriving DecidableEq

/-- A per-file symbol table (types/symbols `ISymbols`).  The declaration
payload (variables, mixins, functions) is collapsed into one list of
names, which is enough for every claim; `ctime` is the stat time recorded
at extraction, `none` when never stamped. -/
structure ISymbols where
  document : Str
  vars : List Str
  imports : List IImport
  ctime : Option Nat
deriving DecidableEq

/-- Transient file entry (`IFile` in scanner.ts). -/
structure IFile where
  filepath : Str
  dir : Str
  ctime : Nat
deriving DecidableEq

/-- The settings fields read by the scanner (types/settings `ISettings`). -/
structure ISettings where
  showErrors : Bool
  scanImportedFiles : Bool
  scanImportedFilesDepth : Nat
  scannerDepth : Nat
  scannerExclude : List Str

/-- A directory entry yielded by the external directory walker
(readdir-enhanced `IEntry`): path, stat ctime, and whether it is a file. -/
structure DirEntry where
  path : Str
  ctime : Nat
  isFile : Bool
deriving DecidableEq

/-- The external collaborators: the directory walker's entry stream, the
filesystem primitives `readFile`/`statFile` (`none` = failure), and the
external stylesheet parser, mapped from (document path, contents) to
the import records and declaration names it extracts. -/
structure Env where
  entries : List DirEntry
  readFile : Str → Option Str
  statFile : Str → Option Nat
  parse : Str → Str → List IImport × List Str

/-- The mutable state threaded through a scan: the shared symbol cache
(services/cache) plus the list of document paths handed to the parser,
recording each extractor run. -/
structure ScanState where
  cache : Str → Option ISymbols
  parsed : List Str

/-- Embedding of `cache.set` of services/cache: point update of the store. -/
def setCache (c : Str → Option ISymbols) (k : Str) (v : ISymbols) : Str → Option ISymbols :=
  fun q => if q = k then some v else c q

/-- The empty cache with no recorded parser runs. -/
def emptyState : ScanState := { cache := fun _ => none, parsed := [] }

/-- Embedding of `path.parse` restricted to what the scanner uses: the directory part
(before the last slash) and the basename (after it). -/
def parsePath (p : Str) : Str × Str :=
  let r := p.reverse
  (((r.dropWhile (fun c => !(c == '/'))).drop 1).reverse,
   (r.takeWhile (fun c => !(c == '/'))).reverse)

/-- Embedding of `path.format` on a dir/base pair as the scanner uses it. -/
def formatPath (d b : Str) : Str :=
  if d = [] then b else d ++ '/' :: b

/-- The check `parsed.base.startsWith('_')` of scanner.ts line 32. -/
def startsWithUnderscore (b : Str) : Bool :=
  match b with
  | c :: _ => c == '_'
  | [] => false

/-- The rewrite `base.replace(/^_/, '')`: drops one leading underscore. -/
def dropUnderscore (b : Str) : Str :=
  match b with
  | c :: t => if c == '_' then t else c :: t
  | [] => []

/-- Partial-prefixed sibling of an import target (scanner.ts lines 87-90):
the basename gets a leading underscore. -/
def addUnderscore (p : Str) : Str :=
  let q := parsePath p
  formatPath q.1 ('_' :: q.2)

/-- Embedding of `makeEntryFile` of scanner.ts. -/
def makeEntryFile (filepath : Str) (ctime : Nat) : IFile :=
  { filepath := filepath, dir := (parsePath filepath).1, ctime := ctime }

/-- Embedding of `makeSymbolsForDocument` of scanner.ts lines 29-46: read the file
(`none` when the read fails), de-underscore the basename of a partial
file, run the parser on the document under the rewritten path, stamp
`ctime`, store the table in the cache keyed by the rewritten path.  The
rewritten path is also logged as a parser invocation. -/
def makeSymbolsForDocument (env : Env) (st : ScanState) (entry : IFile) :
    Option (ISymbols × ScanState) :=
  match env.readFile entry.filepath with
  | none => none
  | some data =>
    let parsed := parsePath entry.filepath
    let filepath :=
      if startsWithUnderscore parsed.2 then formatPath parsed.1 (dropUnderscore parsed.2)
      else entry.filepath
    let pr := env.parse filepath data
    let symbols : ISymbols :=
      { document := filepath, vars := pr.2, imports := pr.1, ctime := some entry.ctime }
    some (symbols, { cache := setCache st.cache filepath symbols,
                     parsed := st.parsed ++ [filepath] })

/-- The freshness test of scanner.ts lines 104 and 168:
`cached.ctime && cached.ctime.getTime() >= entry.ctime.getTime()`. -/
def isFresh (cached : ISymbols) (ctime : Nat) : Bool :=
  match cached.ctime with
  | some t => ctime ≤ t
  | none => false

/-- The shared cache-or-extract step: both the project pass (scanner.ts
lines 163-174) and import resolution (lines 101-108) look the probed path
up in the cache, reuse a fresh entry, and otherwise run the extractor; an
extraction failure yields `none` with the state unchanged. -/
def cacheOrExtract (env : Env) (st : ScanState) (entry : IFile) :
    Option ISymbols × ScanState :=
  match st.cache entry.filepath with
  | some cached =>
    if isFresh cached entry.ctime then (some cached, st)
    else
      match makeSymbolsForDocument env st entry with
      | some p => (some p.1, p.2)
      | none => (none, st)
  | none =>
    match makeSymbolsForDocument env st entry with
    | some p => (some p.1, p.2)
    | none => (none, st)

/-- Candidate collection of one wave (scanner.ts lines 73-94): for
every import record of every table in `list`, skip dynamic and css records,
skip records whose target equals the `document` of a table of
`symbolsList` (the outer function argument), otherwise enqueue the target
path and its partial-prefixed sibling. -/
def collectCandidates (symbolsList : List ISymbols) (list : List ISymbols) : List Str :=
  list.flatMap (fun item =>
    item.imports.flatMap (fun x =>
      if x.dynamic || x.css then []
      else if symbolsList.any (fun s => s.document == x.filepath) then []
      else [x.filepath, addUnderscore x.filepath]))

/-- One candidate of a wave (scanner.ts lines 100-109): stat the path
(failure drops the candidate), then the shared cache-or-extract step; any
failure is caught and becomes `none`. -/
def processCandidate (env : Env) (st : ScanState) (filepath : Str) :
    Option ISymbols × ScanState :=
  match env.statFile filepath with
  | none => (none, st)
  | some ctime => cacheOrExtract env st (makeEntryFile filepath ctime)

/-- The fan-out of one wave, sequentialized left to right. -/
def processAll (env : Env) (st : ScanState) (files : List Str) :
    List (Option ISymbols) × ScanState :=
  match files with
  | [] => ([], st)
  | f :: fs =>
    let r := processCandidate env st f
    let rs := processAll env r.2 fs
    (r.1 :: rs.1, rs.2)

/-- The inner `recurse` of `scannerImportedFiles` (scanner.ts lines
65-117), with the stepping made explicit: `nesting` is the wave counter,
`depth` is `settings.scanImportedFilesDepth`, and `fuel` is an upper
bound on the remaining recursion unfolding (the source recursion is
unbounded; `scannerImportedFiles` below supplies `depth + 1` fuel, which
theorem `c5_resolution_terminates` proves sufficient). -/
def recurseAux (env : Env) (symbolsList : List ISymbols) (depth : Nat) :
    Nat → Nat → ScanState → List ISymbols → List ISymbols →
    List ISymbols × ScanState
  | 0, _, st, accum, _ => (accum, st)
  | fuel + 1, nesting, st, accum, list =>
    if list.length == 0 || nesting == depth then (accum, st)
    else
      let importedFiles := collectCandidates symbolsList list
      if importedFiles.isEmpty then (accum, st)
      else
        let r := processAll env st importedFiles
        let resultList := r.1.filterMap id
        recurseAux env symbolsList depth fuel (nesting + 1) r.2
          (accum ++ resultList) resultList

/-- Embedding of `scannerImportedFiles` of scanner.ts lines 62-120. -/
def scannerImportedFiles (env : Env) (st : ScanState)
    (symbolsList : List ISymbols) (settings : ISettings) :
    List ISymbols × ScanState :=
  recurseAux env symbolsList settings.scanImportedFilesDepth
    (settings.scanImportedFilesDepth + 1) 0 st [] symbolsList

/-- Splitting a path or pattern at slashes, for the glob matcher model. -/
def splitOnSlash : Str → List Str
  | [] => [[]]
  | c :: cs =>
    let r := splitOnSlash cs
    if c = '/' then [] :: r
    else
      match r with
      | [] => [[c]]
      | s :: ss => (c :: s) :: ss

/-- Modelled from the spec: the external glob matcher (micromatch) on the
pattern shapes the scanner uses, matching segment lists where a `**`
segment matches zero or more path segments (tried as every suffix of the
remaining path) and any other segment matches literally. -/
def segsMatch : List Str → List Str → Bool
  | [], segs => segs.isEmpty
  | p :: pr, segs =>
    if p = ['*', '*'] then
      segs.tails.any (fun sf => segsMatch pr sf)
    else
      match segs with
      | [] => false
      | s :: rest => p == s && segsMatch pr rest

/-- Modelled from the spec: `micromatch(path, patterns).length !== 0`. -/
def micromatchAny (p : Str) (patterns : List Str) : Bool :=
  patterns.any (fun pat => segsMatch (splitOnSlash pat) (splitOnSlash p))

/-- The check `stat.path.slice(-5) === '.scss'` of scanner.ts line 129. -/
def endsWithScss (p : Str) : Bool :=
  p.reverse.take 5 == ['s', 's', 'c', 's', '.']

/-- Embedding of `scannerFilter` of scanner.ts lines 125-133. -/
def scannerFilter (stat : DirEntry) (excludePatterns : List Str) : Bool :=
  if micromatchAny stat.path excludePatterns then false
  else if stat.isFile then endsWithScss stat.path
  else true

/-- The character class `[\w.-]` of the `reGlobBaseName` regular
expression, with `\w` as ASCII alphanumerics and underscore. -/
def isWordDotDash (c : Char) : Bool :=
  c.isAlphanum || c == '_' || c == '.' || c == '-'

/-- The test of `reGlobBaseName` (scanner.ts line 18), the regular
expression matching `**/<name>` with an optional trailing slash, where
`<name>` is a nonempty run of `[\w.-]` characters. -/
def reGlobBaseNameTest (p : Str) : Bool :=
  match p with
  | '*' :: '*' :: '/' :: rest =>
    (!rest.isEmpty && rest.all isWordDotDash) ||
    (match rest.reverse with
     | '/' :: core => !core.isEmpty && core.all isWordDotDash
     | _ => false)
  | _ => false

/-- The exclusion expansion of scanner.ts lines 141-149: iterating the
configured patterns, every pattern matching `reGlobBaseName` gets
`<pattern>/**` appended to the very same array (elements appended during
the iteration are not visited by `forEach`). -/
def expandExcludePatterns (ps : List Str) : List Str :=
  ps ++ (ps.filter reGlobBaseNameTest).map (fun p => p ++ ['/', '*', '*'])

/-- The sequential project pass over the walker's file events: the
cache-or-extract step per event, results collected in stream order. -/
def projectPass (env : Env) (st : ScanState) (events : List DirEntry) :
    List (Option ISymbols) × ScanState :=
  match events with
  | [] => ([], st)
  | e :: es =>
    let r := cacheOrExtract env st (makeEntryFile e.path e.ctime)
    let rs := projectPass env r.2 es
    (r.1 :: rs.1, rs.2)

/-- Embedding of `doScanner` of scanner.ts lines 138-201.  The exclusion list is
expanded in place (the returned settings carry the grown array, modelling
the mutation of `settings.scannerExclude`); the walker emits a `file`
event for every entry that is a file and passes `scannerFilter`; the
per-file promises are gathered all-or-nothing as `Promise.all` does: when
any extraction failed, the project list stays empty, and the call rejects
(`none`) only under `showErrors`, otherwise it resolves with the empty
concatenation.  On success, import resolution runs when
`scanImportedFiles` is set and the two lists are concatenated. -/
def doScanner (env : Env) (st : ScanState) (settings : ISettings) :
    Option (List ISymbols) × ScanState × ISettings :=
  let excludePatterns := expandExcludePatterns settings.scannerExclude
  let settings2 := { settings with scannerExclude := excludePatterns }
  let fileEvents := env.entries.filter
    (fun e => e.isFile && scannerFilter e excludePatterns)
  let pr := projectPass env st fileEvents
  if pr.1.all Option.isSome then
    let projectSymbols := pr.1.filterMap id
    let ir :=
      if settings2.scanImportedFiles then
        scannerImportedFiles env pr.2 projectSymbols settings2
      else ([], pr.2)
    (some (projectSymbols ++ ir.1), ir.2, settings2)
  else if settings2.showErrors then (none, pr.2, settings2)
  else (some [], pr.2, settings2)

/-! Concrete scenario environments used to settle the claims. -/

/-- C1 scenario: the walker finds `a.scss` and `b.scss`; reading `a.scss`
yields `content`, reading `b.scss` fails; the parser oracle is `pf`. -/
def envC1 (content : Str) (pf : Str → Str → List IImport × List Str) : Env :=
  { entries := [⟨str "a.scss", 1, true⟩, ⟨str "b.scss", 1, true⟩],
    readFile := fun p => if p = str "a.scss" then some content else none,
    statFile := fun p => if p = str "a.scss" || p = str "b.scss" then some 1 else none,
    parse := pf }

/-- C1 scenario instantiated with concrete content and parse oracle. -/
def envC1c : Env := envC1 (str "A") (fun _ _ => ([], [str "va"]))

def settingsC1 : ISettings :=
  { showErrors := false, scanImportedFiles := true, scanImportedFilesDepth := 1,
    scannerDepth := 30, scannerExclude := [] }

/-- The table the extractor produces for `a.scss` in the C1 scenario. -/
def tableA1 : ISymbols :=
  { document := str "a.scss", vars := [str "va"], imports := [], ctime := some 1 }

/-- C2 scenario: the project scan produced only `a.scss`, which imports
`b.scss`; on disk `b.scss` exists and imports itself. -/
def tA2 : ISymbols :=
  { document := str "a.scss", vars := [],
    imports := [⟨str "b.scss", false, false⟩], ctime := some 0 }

def tB2 : ISymbols :=
  { document := str "b.scss", vars := [],
    imports := [⟨str "b.scss", false, false⟩], ctime := some 0 }

def envC2 : Env :=
  { entries := [],
    readFile := fun p => if p = str "b.scss" then some (str "B") else none,
    statFile := fun p => if p = str "b.scss" then some 0 else none,
    parse := fun fp _ =>
      if fp = str "b.scss" then ([⟨str "b.scss", false, false⟩], []) else ([], []) }

def settingsC2 : ISettings :=
  { showErrors := false, scanImportedFiles := true, scanImportedFilesDepth := 2,
    scannerDepth := 30, scannerExclude := [] }

/-- C3 scenario: the root holds `a.scss` (importing `b`) and the partial
`_b.scss`; on disk only `_b.scss` exists for the import target. -/
def envC3 : Env :=
  { entries := [⟨str "a.scss", 1, true⟩, ⟨str "_b.scss", 1, true⟩],
    readFile := fun p =>
      if p = str "a.scss" then some (str "A")
      else if p = str "_b.scss" then some (str "B")
      else none,
    statFile := fun p => if p = str "_b.scss" then some 1 else none,
    parse := fun fp _ =>
      if fp = str "a.scss" then ([⟨str "b.scss", false, false⟩], [])
      else if fp = str "b.scss" then ([], [str "vb"])
      else ([], []) }

def settingsC3 (d : Nat) : ISettings :=
  { showErrors := false, scanImportedFiles := true, scanImportedFilesDepth := d,
    scannerDepth := 30, scannerExclude := [] }

def tA3 : ISymbols :=
  { document := str "a.scss", vars := [],
    imports := [⟨str "b.scss", false, false⟩], ctime := some 1 }

def tB3 : ISymbols :=
  { document := str "b.scss", vars := [str "vb"], imports := [], ctime := some 1 }

/-- C4 scenario: import resolution only; `a.scss` imports `b.scss`, only
the partial `_b.scss` exists on disk (mtime 1), and the cache already
holds a fresh table for the file under its canonical document path
`b.scss` with recorded ctime 5. -/
def tA4 : ISymbols :=
  { document := str "a.scss", vars := [],
    imports := [⟨str "b.scss", false, false⟩], ctime := some 0 }

def tB4fresh : ISymbols :=
  { document := str "b.scss", vars := [str "vb"], imports := [], ctime := some 5 }

def envC4 : Env :=
  { entries := [],
    readFile := fun p => if p = str "_b.scss" then some (str "B") else none,
    statFile := fun p => if p = str "_b.scss" then some 1 else none,
    parse := fun fp _ => if fp = str "b.scss" then ([], [str "vb"]) else ([], []) }

def stC4 : ScanState :=
  { cache := setCache emptyState.cache (str "b.scss") tB4fresh, parsed := [] }

def settingsC4 : ISettings :=
  { showErrors := false, scanImportedFiles := true, scanImportedFilesDepth := 1,
    scannerDepth := 30, scannerExclude := [] }

/-! The parametric import chain for the depth-bound claim: files
`f, fx, fxx, ...` where each imports the next, `D + 5` links long. -/

/-- Path of the i-th chain file. -/
def cpath (i : Nat) : Str := 'f' :: List.replicate i 'x'

/-- Import record pointing at the i-th chain file. -/
def cimp (i : Nat) : IImport := { filepath := cpath i, dynamic := false, css := false }

/-- Symbol table of the i-th chain file in a chain of `D + 5` links. -/
def ctable (D i : Nat) : ISymbols :=
  { document := cpath i, vars := [],
    imports := if i < D + 5 then [cimp (i + 1)] else [], ctime := some 0 }

/-- Is `p` one of the chain paths `cpath i` with `i ≤ bound`? -/
def isChainPath (p : Str) (bound : Nat) : Prop :=
  match p with
  | c :: xs => c = 'f' ∧ xs.all (fun q => q == 'x') = true ∧ xs.length ≤ bound
  | [] => False

instance (p : Str) (bound : Nat) : Decidable (isChainPath p bound) := by
  unfold isChainPath
  cases p <;> infer_instance

/-- Chain index of a path (length of its `x` tail). -/
def chainIndex (p : Str) : Nat := p.length - 1

/-- Filesystem with the chain files `cpath 0 .. cpath (D + 5)` on disk. -/
def chainEnv (D : Nat) : Env :=
  { entries := [],
    readFile := fun p => if isChainPath p (D + 5) then some p else none,
    statFile := fun p => if isChainPath p (D + 5) then some 0 else none,
    parse := fun fp _ =>
      if isChainPath fp (D + 4) then ([cimp (chainIndex fp + 1)], [])
      else ([], []) }

def chainSettings (D : Nat) : ISettings :=
  { showErrors := false, scanImportedFiles := true, scanImportedFilesDepth := D,
    scannerDepth := 30, scannerExclude := [] }

/-- Joining path segments with slashes (inverse of `splitOnSlash` for
slash-free segments), used to state the exclusion claim over arbitrary
paths below a directory. -/
def joinSegs : List Str → Str
  | [] => []
  | [s] => s
  | s :: rest => s ++ '/' :: joinSegs rest

/-- Erasing the dynamic and css import records of a table, used to state
that such records are never followed. -/
def dropDynamicCss (t : ISymbols) : ISymbols :=
  { t with imports := t.imports.filter (fun x => !(x.dynamic || x.css)) }

theorem parsePath_no_slash (p : Str) (h : ∀ c ∈ p, ¬ c = '/') : parsePath p = ([], p) := by
  unfold parsePath
  have h1 : p.reverse.takeWhile (fun c => !(c == '/')) = p.reverse := by
    rw [List.takeWhile_eq_self_iff]
    intro c hc
    simp only [Bool.not_eq_true']
    exact beq_eq_false_iff_ne.mpr (h c (List.mem_reverse.mp hc))
  have h2 : p.reverse.dropWhile (fun c => !(c == '/')) = [] := by
    rw [List.dropWhile_eq_nil_iff]
    intro c hc
    simp only [Bool.not_eq_true']
    exact beq_eq_false_iff_ne.mpr (h c (List.mem_reverse.mp hc))
  simp [h1, h2]

theorem addUnderscore_no_slash (p : Str) (h : ∀ c ∈ p, ¬ c = '/') :
    addUnderscore p = '_' :: p := by
  unfold addUnderscore
  rw [parsePath_no_slash p h]
  rfl

theorem flatMapCand_filter (sl : List ISymbols) (imps : List IImport) :
    (imps.filter (fun x => !(x.dynamic || x.css))).flatMap (fun x =>
      if x.dynamic || x.css then []
      else if sl.any (fun s => s.document == x.filepath) then []
      else [x.filepath, addUnderscore x.filepath])
    = imps.flatMap (fun x =>
      if x.dynamic || x.css then []
      else if sl.any (fun s => s.document == x.filepath) then []
      else [x.filepath, addUnderscore x.filepath]) := by
  induction imps with
  | nil => rfl
  | cons x r ih =>
    by_cases hx : (x.dynamic || x.css) = true
    · rw [List.filter_cons_of_neg (by simp [hx]), List.flatMap_cons, if_pos hx, ih]
      rfl
    · rw [List.filter_cons_of_pos (by simp [Bool.not_eq_true']; simpa using hx),
        List.flatMap_cons, List.flatMap_cons, ih]

/-- C9: an import record whose `dynamic` or `css` flag is set is never
followed: erasing all such records from every table of a wave's input
leaves the wave's candidate list unchanged, for every wave input, so no
candidate path is ever enqueued from such a record; candidate collection
never consults the filesystem, so this holds regardless of whether the
target path exists on disk. -/
theorem c9_dynamic_css_never_followed (sl list : List ISymbols) :
    collectCandidates sl (list.map dropDynamicCss) = collectCandidates sl list := by
  unfold collectCandidates
  induction list with
  | nil => rfl
  | cons t r ih =>
    rw [List.map_cons, List.flatMap_cons, List.flatMap_cons, ih]
    show ((t.imports.filter _).flatMap _) ++ _ = _
    rw [flatMapCand_filter]

theorem doScanner_settings (env : Env) (st : ScanState) (settings : ISettings) :
    (doScanner env st settings).2.2
      = { settings with scannerExclude := expandExcludePatterns settings.scannerExclude } := by
  unfold doScanner
  dsimp only
  split
  · rfl
  · split <;> rfl

/-- C10: `doScanner` mutates its settings argument: the settings it hands
back carry the `scannerExclude` array grown in place by `<pattern>/**`
for every pattern matching `reGlobBaseName` - one appended entry per
matching pattern on every invocation - and the effective pattern list
used by the filter aliases that same grown array. -/
theorem c10_settings_exclude_growth (env : Env) (st : ScanState) (settings : ISettings) :
    ((doScanner env st settings).2.2).scannerExclude
      = settings.scannerExclude
        ++ (settings.scannerExclude.filter reGlobBaseNameTest).map
            (fun p => p ++ ['/', '*', '*'])
    ∧ ((doScanner env st settings).2.2).scannerExclude.length
      = settings.scannerExclude.length
        + (settings.scannerExclude.filter reGlobBaseNameTest).length := by
  rw [doScanner_settings]
  refine ⟨rfl, ?_⟩
  simp [expandExcludePatterns]

/-- C8: for every file path whose basename starts with an underscore,
extraction stores and reports the resulting symbol table under the
document path with the single leading underscore of the basename removed
(directory part unchanged), and the cache entry is keyed by that
de-underscored path. -/
theorem c8_underscore_canonicalization (env : Env) (st : ScanState) (entry : IFile)
    (d b data : Str)
    (hp : parsePath entry.filepath = (d, '_' :: b))
    (hr : env.readFile entry.filepath = some data) :
    ∃ s st2, makeSymbolsForDocument env st entry = some (s, st2) ∧
      s.document = formatPath d b ∧
      st2.cache (formatPath d b) = some s ∧
      st2.parsed = st.parsed ++ [formatPath d b] := by
  unfold makeSymbolsForDocument
  rw [hr]
  dsimp only
  rw [hp]
  dsimp only [startsWithUnderscore, dropUnderscore]
  simp only [beq_self_eq_true, if_pos]
  refine ⟨_, _, rfl, rfl, ?_, rfl⟩
  simp [setCache]

/-- C1 counterexample: in the claim's best-effort scenario (`a.scss`
reads and parses fine, `b.scss`'s read fails, `showErrors` off),
`doScanner` resolves successfully but with the empty list - not with
exactly `a.scss`'s table as the claim states: the promise gathering is
all-or-nothing, so one failing file drops every project table. -/
theorem c1_strict_off_read_failure_counterexample :
    (doScanner envC1c emptyState settingsC1).1 = some [] ∧
    (doScanner envC1c emptyState settingsC1).1 ≠ some [tableA1] := by
  refine ⟨by decide, by decide⟩

/-- C1 amended: with strict-error mode off, `doScanner` on the
`a.scss`/`b.scss` scenario resolves successfully, but its result is the
empty list: the single failing read makes the whole project gather fail,
so the successfully parsed `a.scss` table is omitted too - for any
content of `a.scss` and any parser oracle. -/
theorem c1_strict_off_read_failure_amended (content : Str) (pf : Str → Str → List IImport × List Str) :
    (doScanner (envC1 content pf) emptyState settingsC1).1 = some [] := rfl

/-- C2 counterexample: with project scan `[a.scss]` and an on-disk
`b.scss` importing itself, `b.scss`'s table is produced in wave 1, and
yet an import record whose target equals that table's document is
enqueued again in wave 2 (the candidate list of the wave whose input is
`[tB2]` still contains `b.scss`), and the run returns `b`'s table twice:
the skip set does not grow with the waves. -/
theorem c2_known_set_counterexample :
    tB2.document = str "b.scss" ∧
    collectCandidates [tA2] [tB2] = [str "b.scss", str "_b.scss"] ∧
    (scannerImportedFiles envC2 emptyState [tA2] settingsC2).1 = [tB2, tB2] := by
  refine ⟨rfl, by decide, by decide⟩

/-- C2 amended: an import record is skipped exactly against the initial
`symbolsList` (the project-scan tables handed to `scannerImportedFiles`):
every enqueued candidate stems from a record that is neither dynamic nor
css and whose target differs from the document of every table of that
initial list.  The known set does not grow with the waves, so a file
first discovered as an import target in wave n can be probed again in a
later wave. -/
theorem c2_skip_initial_project_symbols (sl list : List ISymbols) (fp : Str)
    (h : fp ∈ collectCandidates sl list) :
    ∃ item ∈ list, ∃ x ∈ item.imports,
      x.dynamic = false ∧ x.css = false ∧
      (∀ s ∈ sl, s.document ≠ x.filepath) ∧
      (fp = x.filepath ∨ fp = addUnderscore x.filepath) := by
  simp only [collectCandidates, List.mem_flatMap] at h
  obtain ⟨item, hitem, x, hx, hfp⟩ := h
  by_cases hdc : (x.dynamic || x.css) = true
  · rw [if_pos hdc] at hfp
    simp at hfp
  · rw [if_neg hdc] at hfp
    by_cases hany : (sl.any (fun s => s.document == x.filepath)) = true
    · rw [if_pos hany] at hfp
      simp at hfp
    · rw [if_neg hany] at hfp
      have hdc2 := Bool.or_eq_false_iff.mp (Bool.not_eq_true _ |>.mp hdc)
      refine ⟨item, hitem, x, hx, hdc2.1, hdc2.2, ?_, ?_⟩
      · intro s hs
        have := List.any_eq_false.mp (Bool.not_eq_true _ |>.mp hany) s hs
        exact fun he => this (by simp [he])
      · simpa using hfp

/-- C2 witness: the amended skip property instantiated on the concrete
wave `[tA2]`. -/
theorem c2_skip_initial_project_symbols_witness :
    ∃ item ∈ [tA2], ∃ x ∈ item.imports,
      x.dynamic = false ∧ x.css = false ∧
      (∀ s ∈ [tA2], s.document ≠ x.filepath) ∧
      (str "b.scss" = x.filepath ∨ str "b.scss" = addUnderscore x.filepath) :=
  c2_skip_initial_project_symbols [tA2] [tA2] (str "b.scss") (by decide)

/-- C3 counterexample: in the claim's scenario (`a.scss` importing `b`,
partial `_b.scss`), the first scan returns the two expected tables, but a
second scan with unchanged modification times re-runs the extractor on
`_b.scss` (its parse log is exactly `[b.scss]`): the cache entry is keyed
`b.scss` while the lookup probes the on-disk path `_b.scss`. -/
theorem c3_partial_cache_reuse_counterexample :
    (doScanner envC3 emptyState (settingsC3 1)).1 = some [tA3, tB3] ∧
    (doScanner envC3
        { cache := (doScanner envC3 emptyState (settingsC3 1)).2.1.cache, parsed := [] }
        (settingsC3 1)).2.1.parsed = [str "b.scss"] := by
  refine ⟨by decide, by decide⟩

set_option maxHeartbeats 1600000 in
/-- C3 amended: for every import depth of at least 1, scanning the
`a.scss`/`_b.scss` root returns exactly two tables, for `a.scss` and for
`b.scss` (canonicalized, without underscore); on a second scan with
unchanged modification times `a.scss`'s table is reused from the cache,
but the extractor is re-run for `_b.scss` - the second scan's parse log
is exactly `[b.scss]` - because the cache entry is keyed by the
de-underscored path while the lookup uses the on-disk path. -/
theorem c3_two_tables_amended (e : Nat) :
    (doScanner envC3 emptyState (settingsC3 (e + 1))).1 = some [tA3, tB3] ∧
    (doScanner envC3 emptyState (settingsC3 (e + 1))).2.1.parsed
      = [str "a.scss", str "b.scss"] ∧
    (doScanner envC3
        { cache := (doScanner envC3 emptyState (settingsC3 (e + 1))).2.1.cache,
          parsed := [] } (settingsC3 (e + 1))).1 = some [tA3, tB3] ∧
    (doScanner envC3
        { cache := (doScanner envC3 emptyState (settingsC3 (e + 1))).2.1.cache,
          parsed := [] } (settingsC3 (e + 1))).2.1.parsed = [str "b.scss"] :=
  ⟨rfl, rfl, rfl, rfl⟩

/-- C4 counterexample: a file `_b.scss` whose cached symbol table (held
under its canonical document key `b.scss`) records ctime 5, not older
than the on-disk mtime 1, is nevertheless re-parsed during import
resolution: the lookup uses the probed on-disk path `_b.scss`, which
misses, so the claim's universal freshness idempotence fails for partial
files. -/
theorem c4_freshness_counterexample :
    isFresh tB4fresh 1 = true ∧
    stC4.cache (str "b.scss") = some tB4fresh ∧
    (scannerImportedFiles envC4 stC4 [tA4] settingsC4).2.parsed = [str "b.scss"] := by
  refine ⟨rfl, by decide, by decide⟩

/-- C4 amended: for every probed file path whose cache entry under that
exact path is fresh (recorded ctime not older than the disk ctime), the
cache-or-extract step shared by the project pass and import resolution
returns the cached table verbatim with the state - including the parse
log - unchanged, so the parser is not invoked; in import resolution the
same holds for `processCandidate` after a successful stat.  (For partial
files the extractor keys the cache by the de-underscored path while both
passes probe the on-disk path, so the lookup misses and the parser
re-runs, as the counterexample shows.) -/
theorem c4_fresh_cache_hit_verbatim (env : Env) (st : ScanState) (fp : Str) (ct : Nat)
    (cached : ISymbols)
    (hc : st.cache fp = some cached)
    (hf : isFresh cached ct = true) :
    cacheOrExtract env st (makeEntryFile fp ct) = (some cached, st) ∧
    (env.statFile fp = some ct → processCandidate env st fp = (some cached, st)) := by
  have h1 : cacheOrExtract env st (makeEntryFile fp ct) = (some cached, st) := by
    unfold cacheOrExtract
    rw [show (makeEntryFile fp ct).filepath = fp from rfl, hc]
    dsimp only
    rw [show (makeEntryFile fp ct).ctime = ct from rfl, if_pos hf]
  exact ⟨h1, fun hs => by unfold processCandidate; rw [hs]; exact h1⟩

/-- C4 witness: the fresh-hit property instantiated on the concrete C4
cache and the canonical key `b.scss`. -/
theorem c4_fresh_cache_hit_verbatim_witness :
    cacheOrExtract envC4 stC4 (makeEntryFile (str "b.scss") 1) = (some tB4fresh, stC4) ∧
    (envC4.statFile (str "b.scss") = some 1 →
      processCandidate envC4 stC4 (str "b.scss") = (some tB4fresh, stC4)) :=
  c4_fresh_cache_hit_verbatim envC4 stC4 (str "b.scss") 1 tB4fresh (by decide) (by decide)

theorem recurseAux_fuel_stable (env : Env) (sl : List ISymbols) (depth : Nat) :
    ∀ f1 f2 n st acc list, n ≤ depth → depth - n < f1 → depth - n < f2 →
      recurseAux env sl depth f1 n st acc list
        = recurseAux env sl depth f2 n st acc list := by
  intro f1
  induction f1 with
  | zero => intro f2 n st acc list hn h1 h2; omega
  | succ a ih =>
    intro f2 n st acc list hn h1 h2
    obtain ⟨b, rfl⟩ : ∃ b, f2 = b + 1 := ⟨f2 - 1, by omega⟩
    simp only [recurseAux]
    by_cases hg : (list.length == 0 || n == depth) = true
    · rw [if_pos hg, if_pos hg]
    · rw [if_neg hg, if_neg hg]
      by_cases he : (collectCandidates sl list).isEmpty = true
      · rw [if_pos he, if_pos he]
      · rw [if_neg he, if_neg he]
        have hne : n ≠ depth := by
          intro hnd
          exact hg (by simp [hnd])
        exact ih _ (n + 1) _ _ _ (by omega) (by omega) (by omega)

/-- C5: `scannerImportedFiles` terminates on every input - also on
files importing each other - given that the configured depth is a
non-negative integer (a `Nat` here): the recursion never needs more than
`depth + 1` unfoldings, because each wave increments the nesting counter
which the guard caps at the configured depth, so running it with any
extra fuel returns the very same result. -/
theorem c5_resolution_terminates (env : Env) (st : ScanState) (symbolsList : List ISymbols)
    (settings : ISettings) (extra : Nat) :
    recurseAux env symbolsList settings.scanImportedFilesDepth
        (settings.scanImportedFilesDepth + 1 + extra) 0 st [] symbolsList
      = scannerImportedFiles env st symbolsList settings := by
  unfold scannerImportedFiles
  exact recurseAux_fuel_stable env symbolsList settings.scanImportedFilesDepth
    _ _ 0 st [] symbolsList (Nat.zero_le _) (by omega) (by omega)

theorem splitOnSlash_no_slash (s : Str) (h : ∀ c ∈ s, ¬ c = '/') :
    splitOnSlash s = [s] := by
  induction s with
  | nil => rfl
  | cons c cs ih =>
    have hih := ih (fun q hq => h q (List.mem_cons_of_mem c hq))
    simp [splitOnSlash, h c (List.mem_cons_self c cs), hih]

theorem splitOnSlash_append (s t : Str) (h : ∀ c ∈ s, ¬ c = '/') :
    splitOnSlash (s ++ '/' :: t) = s :: splitOnSlash t := by
  induction s with
  | nil =>
    show splitOnSlash ('/' :: t) = [] :: splitOnSlash t
    simp [splitOnSlash]
  | cons c cs ih =>
    have hih := ih (fun q hq => h q (List.mem_cons_of_mem c hq))
    show splitOnSlash (c :: (cs ++ '/' :: t)) = (c :: cs) :: splitOnSlash t
    simp [splitOnSlash, h c (List.mem_cons_self c cs), hih]

theorem splitOnSlash_joinSegs (segs : List Str) (hne : segs ≠ [])
    (h : ∀ s ∈ segs, ∀ c ∈ s, ¬ c = '/') :
    splitOnSlash (joinSegs segs) = segs := by
  induction segs with
  | nil => exact absurd rfl hne
  | cons s rest ih =>
    cases rest with
    | nil => exact splitOnSlash_no_slash s (h s (List.mem_cons_self s []))
    | cons r rs =>
      show splitOnSlash (s ++ '/' :: joinSegs (r :: rs)) = s :: (r :: rs)
      rw [splitOnSlash_append s _ (h s (List.mem_cons_self s _)),
        ih (by simp) (fun q hq => h q (List.mem_cons_of_mem s hq))]

theorem reGlobBaseNameTest_star (name : Str) (hne : name ≠ [])
    (hw : ∀ c ∈ name, isWordDotDash c = true) :
    reGlobBaseNameTest ('*' :: '*' :: '/' :: name) = true := by
  have e : reGlobBaseNameTest ('*' :: '*' :: '/' :: name)
      = ((!name.isEmpty && name.all isWordDotDash) ||
         (match name.reverse with
          | '/' :: core => !core.isEmpty && core.all isWordDotDash
          | _ => false)) := rfl
  rw [e]
  have h1 : (!name.isEmpty) = true := by
    cases name with
    | nil => exact absurd rfl hne
    | cons c cs => rfl
  rw [h1, List.all_eq_true.mpr hw]
  rfl


theorem segsMatch_star_all (segs : List Str) :
    segsMatch [['*', '*']] segs = true := by
  unfold segsMatch
  rw [if_pos rfl]
  apply List.any_eq_true.mpr
  exact ⟨[], (List.mem_tails _ _).mpr List.nil_suffix, rfl⟩

theorem segsMatch_star_cons (ps : List Str) (segs : List Str) (pre : List Str)
    (h : segsMatch ps segs = true) :
    segsMatch (['*', '*'] :: ps) (pre ++ segs) = true := by
  unfold segsMatch
  rw [if_pos rfl]
  apply List.any_eq_true.mpr
  exact ⟨segs, (List.mem_tails _ _).mpr (List.suffix_append pre segs), h⟩

theorem segsMatch_self_single (s : Str) : segsMatch [s] [s] = true := by
  by_cases hs : s = ['*', '*']
  · subst hs
    exact segsMatch_star_all [['*', '*']]
  · unfold segsMatch
    rw [if_neg hs]
    simp [segsMatch]

theorem segsMatch_lit_star (s : Str) (rest : List Str) :
    segsMatch [s, ['*', '*']] (s :: rest) = true := by
  by_cases hs : s = ['*', '*']
  · subst hs
    unfold segsMatch
    rw [if_pos rfl]
    apply List.any_eq_true.mpr
    exact ⟨['*', '*'] :: rest, (List.mem_tails _ _).mpr (List.suffix_refl _),
      segsMatch_star_all (['*', '*'] :: rest)⟩
  · unfold segsMatch
    rw [if_neg hs]
    simp [segsMatch_star_all]

/-- C7: for every exclusion pattern `**/<name>` (name nonempty, made of
word, dot or dash characters - so no separator and no wildcard), the
scanner's effective pattern set contains both the original pattern and
`**/<name>/**`; the filter rejects the path equal to `<name>` and every
path under a directory named `<name>` at any depth, while a file under a
differently named directory (`not-vendor/`) is not rejected by that
pattern pair. -/
theorem c7_exclusion_expansion (name : Str) (hne : name ≠ [])
    (hw : ∀ c ∈ name, isWordDotDash c = true)
    (ps : List Str) (hmem : ('*' :: '*' :: '/' :: name) ∈ ps)
    (ct : Nat) (b1 b2 : Bool) (pre post : List Str) (f : Str)
    (hpre : ∀ s ∈ pre, ∀ c ∈ s, ¬ c = '/')
    (hpost : ∀ s ∈ post, ∀ c ∈ s, ¬ c = '/')
    (hf : ∀ c ∈ f, ¬ c = '/') :
    ('*' :: '*' :: '/' :: name) ∈ expandExcludePatterns ps ∧
    (('*' :: '*' :: '/' :: name) ++ ['/', '*', '*']) ∈ expandExcludePatterns ps ∧
    scannerFilter ⟨name, ct, b1⟩ (expandExcludePatterns ps) = false ∧
    scannerFilter ⟨joinSegs (pre ++ name :: post ++ [f]), ct, b2⟩
      (expandExcludePatterns ps) = false ∧
    scannerFilter ⟨str "not-vendor/a.scss", 0, true⟩
      [str "**/vendor", str "**/vendor/**"] = true := by
  have hns : ∀ c ∈ name, ¬ c = '/' := by
    intro c hc he
    subst he
    exact absurd (hw _ hc) (by decide)
  have hm1 : ('*' :: '*' :: '/' :: name) ∈ expandExcludePatterns ps :=
    List.mem_append_left _ hmem
  have hm2 : (('*' :: '*' :: '/' :: name) ++ ['/', '*', '*'])
      ∈ expandExcludePatterns ps := by
    apply List.mem_append_right
    exact List.mem_map.mpr
      ⟨_, List.mem_filter.mpr ⟨hmem, reGlobBaseNameTest_star name hne hw⟩, rfl⟩
  have e1 : splitOnSlash ('*' :: '*' :: '/' :: name) = [['*', '*'], name] := by
    have h0 := splitOnSlash_append ['*', '*'] name (by decide)
    rw [show (['*', '*'] : Str) ++ '/' :: name = '*' :: '*' :: '/' :: name from rfl] at h0
    rw [h0, splitOnSlash_no_slash name hns]
  have e2 : splitOnSlash (('*' :: '*' :: '/' :: name) ++ ['/', '*', '*'])
      = [['*', '*'], name, ['*', '*']] := by
    have ha := splitOnSlash_append ['*', '*'] (name ++ ['/', '*', '*']) (by decide)
    rw [show (['*', '*'] : Str) ++ '/' :: (name ++ ['/', '*', '*'])
        = ('*' :: '*' :: '/' :: name) ++ ['/', '*', '*'] from rfl] at ha
    have hb := splitOnSlash_append name ['*', '*'] hns
    rw [show name ++ '/' :: (['*', '*'] : Str) = name ++ ['/', '*', '*'] from rfl] at hb
    rw [ha, hb, splitOnSlash_no_slash ['*', '*'] (by decide)]
  have hrej1 : micromatchAny name (expandExcludePatterns ps) = true := by
    apply List.any_eq_true.mpr
    refine ⟨_, hm1, ?_⟩
    rw [e1, splitOnSlash_no_slash name hns]
    exact segsMatch_star_cons [name] [name] [] (segsMatch_self_single name)
  have hsegs : splitOnSlash (joinSegs (pre ++ name :: post ++ [f]))
      = pre ++ name :: post ++ [f] := by
    apply splitOnSlash_joinSegs
    · cases pre <;> simp
    · intro s hs
      simp only [List.mem_append, List.mem_cons, List.mem_singleton] at hs
      rcases hs with (h1 | h2 | h3) | h4 | h5
      · exact hpre s h1
      · subst h2; exact hns
      · exact hpost s h3
      · subst h4; exact hf
      · exact absurd h5 (List.not_mem_nil s)
  have hrej2 : micromatchAny (joinSegs (pre ++ name :: post ++ [f]))
      (expandExcludePatterns ps) = true := by
    apply List.any_eq_true.mpr
    refine ⟨_, hm2, ?_⟩
    rw [e2, hsegs]
    have hsm := segsMatch_star_cons [name, ['*', '*']] (name :: (post ++ [f])) pre
      (segsMatch_lit_star name (post ++ [f]))
    simpa using hsm
  refine ⟨hm1, hm2, ?_, ?_, by decide⟩
  · simp only [scannerFilter]
    rw [if_pos hrej1]
  · simp only [scannerFilter]
    rw [if_pos hrej2]

theorem chain_all_x (m : Nat) : (List.replicate m 'x').all (fun q => q == 'x') = true :=
  List.all_eq_true.mpr (fun c hc => by simp [List.eq_of_mem_replicate hc])

theorem isChainPath_cpath (m bound : Nat) : isChainPath (cpath m) bound ↔ m ≤ bound := by
  constructor
  · intro h
    obtain ⟨-, -, h3⟩ := h
    simpa using h3
  · intro h
    exact ⟨rfl, chain_all_x m, by simpa using h⟩

theorem chainIndex_cpath (m : Nat) : chainIndex (cpath m) = m := by
  simp [chainIndex, cpath]

theorem cpath_no_slash (m : Nat) : ∀ c ∈ cpath m, ¬ c = '/' := by
  intro c hc
  rcases List.mem_cons.mp hc with h | h
  · subst h; decide
  · rw [List.eq_of_mem_replicate h]; decide

theorem cpath_inj {i j : Nat} (h : cpath i = cpath j) : i = j := by
  have h2 := congrArg List.length h
  simpa [cpath] using h2

theorem chain_stat_le (D m : Nat) (h : m ≤ D + 5) :
    (chainEnv D).statFile (cpath m) = some 0 := by
  show (if isChainPath (cpath m) (D + 5) then some 0 else none) = some 0
  rw [if_pos ((isChainPath_cpath m (D + 5)).mpr h)]

theorem chain_read (D m : Nat) (h : m ≤ D + 5) :
    (chainEnv D).readFile (cpath m) = some (cpath m) := by
  show (if isChainPath (cpath m) (D + 5) then some (cpath m) else none) = some (cpath m)
  rw [if_pos ((isChainPath_cpath m (D + 5)).mpr h)]

theorem chain_parse (D m : Nat) (dat : Str) (h : m ≤ D + 4) :
    (chainEnv D).parse (cpath m) dat = ([cimp (m + 1)], []) := by
  show (if isChainPath (cpath m) (D + 4) then ([cimp (chainIndex (cpath m) + 1)], [])
        else ([], [])) = ([cimp (m + 1)], [])
  rw [if_pos ((isChainPath_cpath m (D + 4)).mpr h), chainIndex_cpath]

theorem chain_stat_underscore (D m : Nat) :
    (chainEnv D).statFile ('_' :: cpath m) = none := by
  show (if isChainPath ('_' :: cpath m) (D + 5) then some 0 else none) = none
  rw [if_neg]
  rintro ⟨h1, -⟩
  exact absurd h1 (by decide)

theorem chain_collect (D n : Nat) (h : n < D + 5) :
    collectCandidates [ctable D 0] [ctable D n]
      = [cpath (n + 1), '_' :: cpath (n + 1)] := by
  unfold collectCandidates
  simp only [List.flatMap_cons, List.flatMap_nil, List.append_nil]
  rw [show (ctable D n).imports = [cimp (n + 1)] from by simp [ctable, h]]
  simp only [List.flatMap_cons, List.flatMap_nil, List.append_nil]
  rw [if_neg (by simp [cimp])]
  have hany : ([ctable D 0].any fun s => s.document == (cimp (n + 1)).filepath) = false := by
    simp only [List.any_cons, List.any_nil, Bool.or_false]
    rw [show (ctable D 0).document = cpath 0 from rfl,
      show (cimp (n + 1)).filepath = cpath (n + 1) from rfl]
    exact beq_eq_false_iff_ne.mpr (fun h2 => by have := cpath_inj h2; omega)
  rw [if_neg (by simp [hany])]
  rw [show (cimp (n + 1)).filepath = cpath (n + 1) from rfl]
  rw [addUnderscore_no_slash _ (cpath_no_slash (n + 1))]

theorem chain_process (D m : Nat) (st : ScanState) (h5 : m ≤ D + 4)
    (hc : st.cache (cpath m) = none) :
    processCandidate (chainEnv D) st (cpath m)
      = (some (ctable D m),
         { cache := setCache st.cache (cpath m) (ctable D m),
           parsed := st.parsed ++ [cpath m] }) := by
  unfold processCandidate
  rw [chain_stat_le D m (by omega)]
  show cacheOrExtract (chainEnv D) st (makeEntryFile (cpath m) 0) = _
  unfold cacheOrExtract
  rw [show (makeEntryFile (cpath m) 0).filepath = cpath m from rfl, hc]
  unfold makeSymbolsForDocument
  rw [show (makeEntryFile (cpath m) 0).filepath = cpath m from rfl,
    chain_read D m (by omega)]
  dsimp only
  rw [parsePath_no_slash _ (cpath_no_slash m)]
  dsimp only
  rw [if_neg (by rw [show startsWithUnderscore (cpath m) = false from rfl]; simp)]
  rw [chain_parse D m (cpath m) h5]
  dsimp only
  rw [show (makeEntryFile (cpath m) 0).ctime = 0 from rfl]
  have htab : ctable D m
      = { document := cpath m, vars := [], imports := [cimp (m + 1)], ctime := some 0 } := by
    simp [ctable, show m < D + 5 from by omega]
  rw [htab]

theorem chain_process_underscore (D m : Nat) (st : ScanState) :
    processCandidate (chainEnv D) st ('_' :: cpath m) = (none, st) := by
  unfold processCandidate
  rw [chain_stat_underscore D m]

theorem chain_run (D : Nat) :
    ∀ fuel n st acc, n ≤ D → D - n < fuel →
      (∀ m, n < m → st.cache (cpath m) = none) →
      (recurseAux (chainEnv D) [ctable D 0] D fuel n st acc [ctable D n]).1
        = acc ++ (List.range' (n + 1) (D - n)).map (ctable D) := by
  intro fuel
  induction fuel with
  | zero => intro n st acc hn hf hcache; omega
  | succ fu ih =>
    intro n st acc hn hf hcache
    simp only [recurseAux]
    by_cases hend : n = D
    · subst hend
      rw [if_pos (by simp)]
      simp
    · have hlt : n < D := by omega
      rw [if_neg (by simp [hend])]
      rw [chain_collect D n (by omega)]
      rw [if_neg (by simp)]
      have hpa : processAll (chainEnv D) st [cpath (n + 1), '_' :: cpath (n + 1)]
          = ([some (ctable D (n + 1)), none],
             { cache := setCache st.cache (cpath (n + 1)) (ctable D (n + 1)),
               parsed := st.parsed ++ [cpath (n + 1)] }) := by
        simp only [processAll,
          chain_process D (n + 1) st (by omega) (hcache (n + 1) (by omega)),
          chain_process_underscore]
      rw [hpa]
      have hfm : ([some (ctable D (n + 1)), none] : List (Option ISymbols)).filterMap id
          = [ctable D (n + 1)] := rfl
      dsimp only
      rw [hfm]
      rw [ih (n + 1) _ (acc ++ [ctable D (n + 1)]) (by omega) (by omega) ?hcc]
      case hcc =>
        intro m hm
        show (if cpath m = cpath (n + 1) then some (ctable D (n + 1))
              else st.cache (cpath m)) = none
        rw [if_neg (fun he => absurd (cpath_inj he) (by omega))]
        exact hcache m (by omega)
      rw [show D - n = D - (n + 1) + 1 from by omega, List.range'_succ]
      simp

/-- C6: with import depth bound `D` and a chain of `D + 5` nested
distinct imports rooted at the single project table, resolution returns
exactly the tables of the first `D` waves (chain files `1 .. D`); every
file whose discovery needs more than `D` waves - in particular file
`D + 1 + k` - is absent from the result, and reaching the bound is a
normal value-returning termination, not an error. -/
theorem c6_depth_bound (D k : Nat) :
    (scannerImportedFiles (chainEnv D) emptyState [ctable D 0] (chainSettings D)).1
      = (List.range' 1 D).map (ctable D) ∧
    ctable D (D + 1 + k)
      ∉ (scannerImportedFiles (chainEnv D) emptyState [ctable D 0] (chainSettings D)).1 := by
  have h1 : (scannerImportedFiles (chainEnv D) emptyState [ctable D 0]
      (chainSettings D)).1 = (List.range' 1 D).map (ctable D) := by
    unfold scannerImportedFiles
    have h0 := chain_run D (D + 1) 0 emptyState [] (Nat.zero_le D) (by omega)
      (fun m hm => rfl)
    simpa using h0
  refine ⟨h1, ?_⟩
  rw [h1]
  intro hmem
  obtain ⟨i, hi, heq⟩ := List.mem_map.mp hmem
  have hdoc := congrArg ISymbols.document heq
  have hik : i = D + 1 + k := cpath_inj (by simpa [ctable] using hdoc)
  have hi2 := List.mem_range'_1.mp hi
  omega

/-- C7 witness: the exclusion expansion instantiated at `vendor`, with
the subtree path `x/vendor/a.scss`. -/
theorem c7_exclusion_expansion_witness :
    ('*' :: '*' :: '/' :: str "vendor") ∈ expandExcludePatterns [str "**/vendor"] ∧
    (('*' :: '*' :: '/' :: str "vendor") ++ ['/', '*', '*'])
      ∈ expandExcludePatterns [str "**/vendor"] ∧
    scannerFilter ⟨str "vendor", 0, true⟩
      (expandExcludePatterns [str "**/vendor"]) = false ∧
    scannerFilter ⟨joinSegs ([str "x"] ++ str "vendor" :: [] ++ [str "a.scss"]), 0, true⟩
      (expandExcludePatterns [str "**/vendor"]) = false ∧
    scannerFilter ⟨str "not-vendor/a.scss", 0, true⟩
      [str "**/vendor", str "**/vendor/**"] = true :=
  c7_exclusion_expansion (str "vendor") (by decide) (by decide) [str "**/vendor"]
    (by decide) 0 true true [str "x"] [] (str "a.scss") (by decide) (by decide)
    (by decide)

/-- C8 witness: extracting the partial file `_b.scss` stores and reports
its table under `b.scss`. -/
theorem c8_underscore_canonicalization_witness :
    ∃ s st2, makeSymbolsForDocument envC4 emptyState (makeEntryFile (str "_b.scss") 1)
        = some (s, st2) ∧
      s.document = formatPath [] (str "b.scss") ∧
      st2.cache (formatPath [] (str "b.scss")) = some s ∧
      st2.parsed = emptyState.parsed ++ [formatPath [] (str "b.scss")] :=
  c8_underscore_canonicalization envC4 emptyState (makeEntryFile (str "_b.scss") 1)
    [] (str "b.scss") (str "B") (by decide) (by decide)

end Scanner
